import Mathlib

/-!
Verification of the acme-accounting back office:
the ticket assignment engine (src/tickets/tickets.controller.ts) and the
ledger report generator (ReportsService).  JavaScript numbers are embedded
as exact decimal fractions `n / 10^k` together with a NaN element; string
splitting, parsing and formatting are embedded structurally so that every
definition evaluates inside the kernel.
-/

deriving instance DecidableEq for Except

/-- A JavaScript number as it occurs in the report pipelines: either NaN or
the exact decimal value `n / 10 ^ k`.  (All numbers produced by the code
are decimal literals combined by `+`/`-`, so this embedding is exact;
Infinity never arises and is not modelled.) -/
inductive JsNum where
  | nan : JsNum
  | num (n : ℤ) (k : ℕ) : JsNum
deriving DecidableEq, Repr

/-- JavaScript `+` on numbers: NaN propagates. -/
def JsNum.add : JsNum → JsNum → JsNum
  | .num a j, .num b k => .num (a * 10 ^ k + b * 10 ^ j) (j + k)
  | _, _ => .nan

/-- JavaScript `-` on numbers: NaN propagates. -/
def JsNum.sub : JsNum → JsNum → JsNum
  | .num a j, .num b k => .num (a * 10 ^ k - b * 10 ^ j) (j + k)
  | _, _ => .nan

/-- JavaScript falsiness of a number: `0`, `-0` and `NaN` are falsy. -/
def JsNum.falsy : JsNum → Bool
  | .nan => true
  | .num n _ => n = 0

/-- The rational value of a `JsNum` (NaN is sent to the junk value 0;
all statements about values carry a NaN-freeness hypothesis). -/
def JsNum.toRat : JsNum → ℚ
  | .nan => 0
  | .num n k => (n : ℚ) / 10 ^ k

/-- Value of a list of decimal digit characters. -/
def digitsToNat (ds : List Char) : ℕ :=
  ds.foldl (fun a c => a * 10 + (c.toNat - 48)) 0

/-- Embedding of JavaScript `parseFloat`: skip leading whitespace, read an
optional sign, integer digits, an optional fractional part and an optional
exponent, ignoring any trailing garbage; if no digits are found the result
is NaN.  (The `Infinity` literal is not modelled.) -/
def parseFloat (s : String) : JsNum :=
  let cs := s.data.dropWhile fun c => c == ' ' || c == '\t' || c == '\n' || c == '\r'
  let sgn : Bool := cs.head? == some '-'
  let cs1 := if cs.head? == some '-' || cs.head? == some '+' then cs.tail else cs
  let ip := cs1.takeWhile Char.isDigit
  let cs2 := cs1.dropWhile Char.isDigit
  let fp := match cs2 with
    | '.' :: r => r.takeWhile Char.isDigit
    | _ => []
  let cs3 := match cs2 with
    | '.' :: r => r.dropWhile Char.isDigit
    | _ => cs2
  if ip.isEmpty && fp.isEmpty then .nan
  else
    let m : ℤ := (digitsToNat ip * 10 ^ fp.length + digitsToNat fp : ℕ)
    let n : ℤ := if sgn then -m else m
    match cs3 with
    | c :: r =>
      if c == 'e' || c == 'E' then
        let eneg : Bool := r.head? == some '-'
        let r1 := if r.head? == some '-' || r.head? == some '+' then r.tail else r
        let ed := r1.takeWhile Char.isDigit
        if ed.isEmpty then .num n fp.length
        else if eneg then .num n (fp.length + digitsToNat ed)
        else .num (n * 10 ^ digitsToNat ed) fp.length
      else .num n fp.length
    | [] => .num n fp.length

/-- Two-digit zero padding for the fractional part of `toFixed(2)`. -/
def pad2 (n : ℕ) : String :=
  if n < 10 then "0" ++ toString n else toString n

/-- Formatting of the exact value `n / 10 ^ k` the way
`Number.prototype.toFixed(2)` renders it (ECMA: the sign is split off
first, then the closest 2-decimal representation is chosen, ties towards
the larger candidate). -/
def fmtPair (n : ℤ) (k : ℕ) : String :=
  let den := 10 ^ k
  let c : ℕ := (200 * n.natAbs + den) / (2 * den)
  (if n < 0 then "-" else "") ++ toString (c / 100) ++ "." ++ pad2 (c % 100)

/-- JavaScript `x.toFixed(2)` on a `JsNum`; `NaN.toFixed(2) = "NaN"`. -/
def JsNum.toFixed2 : JsNum → String
  | .nan => "NaN"
  | .num n k => fmtPair n k

/-- Specification-side rendering of a rational to two decimal places,
matching `toFixed(2)` (sign first, then round half towards plus
infinity on the absolute value). -/
def fmtQ2 (q : ℚ) : String :=
  (if q < 0 then "-" else "") ++
    toString ((⌊|q| * 100 + 1 / 2⌋₊ : ℕ) / 100) ++ "." ++ pad2 (⌊|q| * 100 + 1 / 2⌋₊ % 100)

/-- JavaScript `String.prototype.split` on a single-character separator. -/
def jsSplit (sep : Char) : List Char → List (List Char)
  | [] => [[]]
  | c :: rest =>
    let r := jsSplit sep rest
    if c = sep then [] :: r
    else
      match r with
      | [] => [[c]]
      | g :: gs => (c :: g) :: gs

/-- The comma-separated fields of one CSV line (`line.split(',')`). -/
def lineFields (line : String) : List String :=
  (jsSplit ',' line.data).map (fun g => String.mk g)

/-- Reading a destructured field as a JavaScript property key: a missing
field is `undefined`, which JavaScript coerces to the key "undefined". -/
def keyOf : Option String → String
  | none => "undefined"
  | some s => s

/-- The account-name field (index 1) of a CSV line, as used as record key. -/
def lineKey (line : String) : String :=
  keyOf ((lineFields line)[1]?)

/-- Embedding of `parseFloat(field || '0')`: a missing (`undefined`) or
empty field is replaced by the string "0" before parsing. -/
def numField (o : Option String) : JsNum :=
  parseFloat (match o with
    | none => "0"
    | some s => if s = "" then "0" else s)

/-- The parsed debit field (index 3) of a CSV line. -/
def lineDebit (line : String) : JsNum :=
  numField ((lineFields line)[3]?)

/-- The parsed credit field (index 4) of a CSV line. -/
def lineCredit (line : String) : JsNum :=
  numField ((lineFields line)[4]?)

/-- The amount a line adds to its account: `parseFloat(debit || '0') -
parseFloat(credit || '0')`. -/
def lineDelta (line : String) : JsNum :=
  (lineDebit line).sub (lineCredit line)

/-- Lookup in an association list, mirroring property access on the
accumulating JavaScript record. -/
def alookup (k : String) : List (String × JsNum) → Option JsNum
  | [] => none
  | p :: ps => if p.1 = k then some p.2 else alookup k ps

/-- Replace the value stored under an existing key. -/
def assocSet : List (String × JsNum) → String → JsNum → List (String × JsNum)
  | [], _, _ => []
  | p :: ps, k, v => if p.1 = k then (k, v) :: ps else p :: assocSet ps k v

/-- One record update of the aggregation loops:
`if (!rec[k]) rec[k] = 0; rec[k] += d`.  A missing key is inserted at the
end; a falsy stored value (0 or NaN) is reset to 0 before adding. -/
def updateBalance (l : List (String × JsNum)) (k : String) (d : JsNum) : List (String × JsNum) :=
  match alookup k l with
  | none => l ++ [(k, JsNum.add (.num 0 0) d)]
  | some v => assocSet l k (JsNum.add (if v.falsy then .num 0 0 else v) d)

/-- The keys a key/delta stream creates, in first-seen order. -/
def seenKeys (keyed : List (String × JsNum)) : List String :=
  keyed.foldl (fun ks p => if p.1 ∈ ks then ks else ks ++ [p.1]) []

/-- Specification-side sum of the deltas recorded under a key. -/
def sumFor (k : String) : List (String × JsNum) → ℚ
  | [] => 0
  | p :: ps => (if p.1 = k then p.2.toRat else 0) + sumFor k ps

/-- Fold of `updateBalance` over a key/delta stream. -/
def accumulate (keyed : List (String × JsNum)) : List (String × JsNum) :=
  keyed.foldl (fun acc p => updateBalance acc p.1 p.2) []

/-- ReportsService.accounts: the per-account running balances after the
nested loop over all files and all lines. -/
def accountBalancesOf (files : List (List String)) : List (String × JsNum) :=
  files.foldl
    (fun acc fileLines =>
      fileLines.foldl (fun a line => updateBalance a (lineKey line) (lineDelta line)) acc)
    []

/-- ReportsService.accounts: the lines written to accounts.csv. -/
def accountsReportLines (files : List (List String)) : List String :=
  "Account,Balance" :: (accountBalancesOf files).map (fun p => p.1 ++ "," ++ p.2.toFixed2)

/-- Days in a month of the proleptic Gregorian calendar, as validated by
the ECMAScript ISO date parser. -/
def daysInMonth (y m : ℕ) : ℕ :=
  if m = 2 then (if y % 4 = 0 ∧ (y % 100 ≠ 0 ∨ y % 400 = 0) then 29 else 28)
  else if m = 4 ∨ m = 6 ∨ m = 9 ∨ m = 11 then 30 else 31

/-- Embedding of `new Date(s).getFullYear().toString()` for the date
strings of this repository, assuming a UTC host timezone: an ISO
`YYYY-MM-DD` string with in-range month and day yields its year component
as a decimal string (leading zeros dropped, as `Number.prototype.toString`
does); every other string yields an invalid date, hence "NaN". -/
def jsYearString (s : String) : String :=
  match s.data with
  | [a, b, c, d, h1, e, f, h2, g, i] =>
    if h1 = '-' ∧ h2 = '-' ∧ ([a, b, c, d, e, f, g, i].all Char.isDigit) then
      let y := digitsToNat [a, b, c, d]
      let mo := digitsToNat [e, f]
      let da := digitsToNat [g, i]
      if 1 ≤ mo ∧ mo ≤ 12 ∧ 1 ≤ da ∧ da ≤ daysInMonth y mo then toString y else "NaN"
    else "NaN"
  | _ => "NaN"

/-- The year bucket of a CSV line: the date field (index 0) pushed through
`new Date(...).getFullYear().toString()`. -/
def yearKey (line : String) : String :=
  jsYearString (keyOf ((lineFields line)[0]?))

/-- Lexicographic strict order on strings by character code, as the
default `Array.prototype.sort` comparator uses. -/
def jsStrLtB : List Char → List Char → Bool
  | [], [] => false
  | [], _ :: _ => true
  | _ :: _, [] => false
  | a :: as, b :: bs =>
    if a.toNat < b.toNat then true
    else if b.toNat < a.toNat then false
    else jsStrLtB as bs

/-- ReportsService.yearly: the per-year cash balances after the nested
loop (only lines whose account field is "Cash" are bucketed). -/
def yearlyMap (files : List (List String)) : List (String × JsNum) :=
  files.foldl
    (fun acc fileLines =>
      fileLines.foldl
        (fun a line =>
          if lineKey line = "Cash" then updateBalance a (yearKey line) (lineDelta line) else a)
        acc)
    []

/-- ReportsService.yearly: the lines written to yearly.csv; the year keys
are sorted with the default (lexicographic) JavaScript sort. -/
def yearlyReportLines (files : List (List String)) : List String :=
  "Financial Year,Cash Balance" ::
    (List.insertionSort (fun a b : String => jsStrLtB b.data a.data = false)
        ((yearlyMap files).map Prod.fst)).map
      (fun y => y ++ "," ++ ((alookup y (yearlyMap files)).getD JsNum.nan).toFixed2)

/-- The FINANCIAL_CATEGORIES revenue accounts. -/
def revenueAccounts : List String := ["Sales Revenue"]

/-- The FINANCIAL_CATEGORIES expense accounts. -/
def expenseAccounts : List String :=
  ["Cost of Goods Sold", "Salaries Expense", "Rent Expense", "Utilities Expense",
    "Interest Expense", "Tax Expense"]

/-- The FINANCIAL_CATEGORIES asset accounts. -/
def assetAccounts : List String :=
  ["Cash", "Accounts Receivable", "Inventory", "Fixed Assets", "Prepaid Expenses"]

/-- The FINANCIAL_CATEGORIES liability accounts. -/
def liabilityAccounts : List String :=
  ["Accounts Payable", "Loan Payable", "Sales Tax Payable", "Accrued Liabilities",
    "Unearned Revenue", "Dividends Payable"]

/-- The FINANCIAL_CATEGORIES equity accounts. -/
def equityAccounts : List String := ["Common Stock", "Retained Earnings"]

/-- All account names of the FINANCIAL_CATEGORIES taxonomy
(the `relevantAccounts` set of ReportsService.fs). -/
def relevantAccounts : List String :=
  revenueAccounts ++ expenseAccounts ++ assetAccounts ++ liabilityAccounts ++ equityAccounts

/-- ReportsService.fs: the accumulated balance of one taxonomy account
(initialised to 0; each line whose account field matches a relevant
account adds `debit - credit`; no falsy reset happens in this loop). -/
def fsBalance (files : List (List String)) (acct : String) : JsNum :=
  files.foldl
    (fun a fileLines =>
      fileLines.foldl
        (fun b line =>
          if acct ∈ relevantAccounts ∧ lineKey line = acct then b.add (lineDelta line) else b)
        a)
    (.num 0 0)

/-- The displayed value of a taxonomy account: `balances[account] || 0`,
which coerces a falsy balance (0 or NaN) to 0. -/
def fsVal (files : List (List String)) (acct : String) : JsNum :=
  match fsBalance files acct with
  | .nan => .num 0 0
  | .num n k => if n = 0 then .num 0 0 else .num n k

/-- Left fold of JavaScript `+` over a list of values, starting from 0,
as the `total… += value` loops do. -/
def sumJs (l : List JsNum) : JsNum :=
  l.foldl JsNum.add (.num 0 0)

/-- ReportsService.fs: totalRevenue. -/
def totalRevenueJs (files : List (List String)) : JsNum :=
  sumJs (revenueAccounts.map (fsVal files))

/-- ReportsService.fs: totalExpenses. -/
def totalExpensesJs (files : List (List String)) : JsNum :=
  sumJs (expenseAccounts.map (fsVal files))

/-- ReportsService.fs: netIncome = totalRevenue - totalExpenses. -/
def netIncomeJs (files : List (List String)) : JsNum :=
  (totalRevenueJs files).sub (totalExpensesJs files)

/-- ReportsService.fs: totalAssets. -/
def totalAssetsJs (files : List (List String)) : JsNum :=
  sumJs (assetAccounts.map (fsVal files))

/-- ReportsService.fs: totalLiabilities. -/
def totalLiabilitiesJs (files : List (List String)) : JsNum :=
  sumJs (liabilityAccounts.map (fsVal files))

/-- ReportsService.fs: totalEquity, which sums the equity-account values
and then adds netIncome once more as retained earnings. -/
def totalEquityJs (files : List (List String)) : JsNum :=
  (sumJs (equityAccounts.map (fsVal files))).add (netIncomeJs files)

/-- ReportsService.fs: the lines written to fs.csv. -/
def fsReportLines (files : List (List String)) : List String :=
  ["Basic Financial Statement", "", "Income Statement"]
    ++ revenueAccounts.map (fun a => a ++ "," ++ (fsVal files a).toFixed2)
    ++ expenseAccounts.map (fun a => a ++ "," ++ (fsVal files a).toFixed2)
    ++ ["Net Income," ++ (netIncomeJs files).toFixed2, "", "Balance Sheet", "Assets"]
    ++ assetAccounts.map (fun a => a ++ "," ++ (fsVal files a).toFixed2)
    ++ ["Total Assets," ++ (totalAssetsJs files).toFixed2, "", "Liabilities"]
    ++ liabilityAccounts.map (fun a => a ++ "," ++ (fsVal files a).toFixed2)
    ++ ["Total Liabilities," ++ (totalLiabilitiesJs files).toFixed2, "", "Equity"]
    ++ equityAccounts.map (fun a => a ++ "," ++ (fsVal files a).toFixed2)
    ++ ["Retained Earnings (Net Income)," ++ (netIncomeJs files).toFixed2,
        "Total Equity," ++ (totalEquityJs files).toFixed2, "",
        "Assets = Liabilities + Equity, " ++ (totalAssetsJs files).toFixed2 ++ " = " ++
          ((totalLiabilitiesJs files).add (totalEquityJs files)).toFixed2]

/-- Ticket types (db/models/Ticket). -/
inductive TicketType where
  | managementReport | strikeOff | registrationAddressChange | other
deriving DecidableEq, Repr

/-- Ticket categories (db/models/Ticket). -/
inductive TicketCategory where
  | accounting | management | corporate
deriving DecidableEq, Repr

/-- Ticket status (db/models/Ticket); `opened` embeds the source's
status value `open` (a Lean keyword). -/
inductive TicketStatus where
  | opened | resolved
deriving DecidableEq, Repr

/-- User roles (db/models/User). -/
inductive UserRole where
  | accountant | corporateSecretary | director
deriving DecidableEq, Repr

/-- A persisted user row; `createdAt` is an abstract timestamp. -/
structure User where
  id : ℕ
  role : UserRole
  companyId : ℕ
  createdAt : ℕ
deriving DecidableEq, Repr

/-- A persisted ticket row. -/
structure Ticket where
  id : ℕ
  type : TicketType
  category : TicketCategory
  status : TicketStatus
  companyId : ℕ
  assigneeId : ℕ
deriving DecidableEq, Repr

/-- A persisted company row. -/
structure Company where
  id : ℕ
deriving DecidableEq, Repr

/-- The persistent state the ticket engine reads and writes. -/
structure Model where
  companies : List Company
  users : List User
  tickets : List Ticket
  nextTicketId : ℕ
deriving DecidableEq, Repr

/-- The POST /api/v1/tickets request body; `none` stands for a missing or
invalid `type` (every member of the `TicketType` enum is valid), and a
`companyId` of 0 is the falsy value rejected by `!companyId`. -/
structure NewTicketDto where
  type : Option TicketType
  companyId : ℕ
deriving DecidableEq, Repr

/-- The response DTO built from the created ticket. -/
structure TicketDto where
  id : ℕ
  type : TicketType
  companyId : ℕ
  assigneeId : ℕ
  status : TicketStatus
  category : TicketCategory
deriving DecidableEq, Repr

/-- The three error responses of TicketsController.create:
BadRequestException, NotFoundException, ConflictException. -/
inductive TicketErr where
  | validation (msg : String)
  | notFound (msg : String)
  | conflict (msg : String)
deriving DecidableEq, Repr

/-- Company.findByPk(companyId) succeeds. -/
def companyExists (m : Model) (cid : ℕ) : Bool :=
  m.companies.any (fun c => decide (c.id = cid))

/-- Ticket.findOne({companyId, type: registrationAddressChange}) finds a
row; note the query has no status filter. -/
def hasRacTicket (m : Model) (cid : ℕ) : Bool :=
  m.tickets.any (fun t => decide (t.companyId = cid ∧ t.type = .registrationAddressChange))

/-- User.findAll({companyId, role}). -/
def usersWith (m : Model) (cid : ℕ) (r : UserRole) : List User :=
  m.users.filter (fun u => decide (u.companyId = cid ∧ u.role = r))

/-- order: createdAt DESC on a user query result. -/
def orderByCreatedAtDesc (us : List User) : List User :=
  List.insertionSort (fun a b : User => b.createdAt ≤ a.createdAt) us

/-- Printable role name, for the interpolated conflict message. -/
def roleName : UserRole → String
  | .accountant => "accountant"
  | .corporateSecretary => "corporateSecretary"
  | .director => "director"

/-- The bulk update resolving every open non-strikeOff ticket of the
company (Ticket.update with where companyId, status open, type ne
strikeOff). -/
def resolveOtherTickets (cid : ℕ) (ts : List Ticket) : List Ticket :=
  ts.map (fun t =>
    if t.companyId = cid ∧ t.status = .opened ∧ t.type ≠ .strikeOff then
      { t with status := TicketStatus.resolved }
    else t)

/-- The tail of TicketsController.create once category and userRole are
fixed: re-query the role's users ordered by createdAt descending, fail if
none, otherwise persist a new open ticket assigned to the first one and
return its DTO. -/
def finishCreate (m : Model) (cid : ℕ) (cat : TicketCategory) (role : UserRole)
    (ty : TicketType) : Model × Except TicketErr TicketDto :=
  match orderByCreatedAtDesc (usersWith m cid role) with
  | [] =>
    (m, .error (.conflict ("Cannot find user with role " ++ roleName role ++
      " to create a ticket")))
  | a :: _ =>
    let t : Ticket :=
      { id := m.nextTicketId, type := ty, category := cat, status := .opened,
        companyId := cid, assigneeId := a.id }
    ({ m with tickets := m.tickets ++ [t], nextTicketId := m.nextTicketId + 1 },
      .ok { id := t.id, type := ty, companyId := cid, assigneeId := a.id,
            status := .opened, category := cat })

/-- TicketsController.create: the full request handler.  The returned
model carries every persistence effect performed before the handler
returned or threw (there is no transaction in the source). -/
def createTicket (m : Model) (dto : NewTicketDto) : Model × Except TicketErr TicketDto :=
  match dto.type with
  | none => (m, .error (.validation "Type and companyId are required"))
  | some ty =>
    if dto.companyId = 0 then (m, .error (.validation "Type and companyId are required"))
    else if companyExists m dto.companyId = false then
      (m, .error (.notFound "Company not found"))
    else if ty = .registrationAddressChange ∧ hasRacTicket m dto.companyId then
      (m, .error (.conflict "A registrationAddressChange ticket already exists for this company"))
    else if ty = .managementReport then
      finishCreate m dto.companyId .accounting .accountant ty
    else if ty = .strikeOff then
      if (usersWith m dto.companyId .director).length = 1 then
        finishCreate { m with tickets := resolveOtherTickets dto.companyId m.tickets }
          dto.companyId .management .director ty
      else if (usersWith m dto.companyId .director).length > 1 then
        (m, .error (.conflict "Multiple directors found. Cannot create a strikeOff ticket"))
      else
        (m, .error (.conflict "No director found. Cannot create a strikeOff ticket"))
    else
      if (usersWith m dto.companyId .corporateSecretary).length = 1 then
        finishCreate m dto.companyId .corporate .corporateSecretary ty
      else if (usersWith m dto.companyId .corporateSecretary).length > 1 then
        (m, .error (.conflict "Multiple corporate secretaries found. Cannot create a ticket"))
      else if (usersWith m dto.companyId .director).length = 1 then
        finishCreate m dto.companyId .corporate .director ty
      else if (usersWith m dto.companyId .director).length > 1 then
        (m, .error (.conflict "Multiple directors found. Cannot create a ticket"))
      else
        (m, .error (.conflict "No suitable assignee found for this ticket type"))

/-- The key/delta stream the accounts report folds over. -/
def accountsKeyed (ls : List String) : List (String × JsNum) :=
  ls.map (fun l => (lineKey l, lineDelta l))

/-- Whether a line's account field is "Cash". -/
def isCashLine (l : String) : Bool :=
  decide (lineKey l = "Cash")

/-- The key/delta stream the yearly report folds over: Cash lines only,
keyed by year. -/
def yearlyKeyed (ls : List String) : List (String × JsNum) :=
  (ls.filter isCashLine).map (fun l => (yearKey l, lineDelta l))

/-- A line both of whose debit and credit fields parse to numbers
(missing and empty fields parse to 0 and are well formed). -/
def wellFormedLine (l : String) : Prop :=
  lineDebit l ≠ .nan ∧ lineCredit l ≠ .nan

instance : DecidablePred wellFormedLine := fun l =>
  inferInstanceAs (Decidable (lineDebit l ≠ .nan ∧ lineCredit l ≠ .nan))

/-- Specification-side sum of the debit amounts of the lines of one
account. -/
def sumDebits (k : String) : List String → ℚ
  | [] => 0
  | l :: ls => (if lineKey l = k then (lineDebit l).toRat else 0) + sumDebits k ls

/-- Specification-side sum of the credit amounts of the lines of one
account. -/
def sumCredits (k : String) : List String → ℚ
  | [] => 0
  | l :: ls => (if lineKey l = k then (lineCredit l).toRat else 0) + sumCredits k ls

/-- Specification-side accumulated `debit - credit` of the Cash lines of
one calendar year. -/
def cashYearSum (y : String) : List String → ℚ
  | [] => 0
  | l :: ls =>
    (if lineKey l = "Cash" ∧ yearKey l = y then
      (lineDebit l).toRat - (lineCredit l).toRat
    else 0) + cashYearSum y ls

/-- Specification-side value of a taxonomy account in the financial
statement. -/
def fsValQ (files : List (List String)) (a : String) : ℚ :=
  (fsVal files a).toRat

/-- Specification-side net income: total revenue minus total expenses. -/
def netIncomeQ (files : List (List String)) : ℚ :=
  (revenueAccounts.map (fsValQ files)).sum - (expenseAccounts.map (fsValQ files)).sum

/-- Specification-side total assets: the sum of the listed asset-account
balances. -/
def totalAssetsQ (files : List (List String)) : ℚ :=
  (assetAccounts.map (fsValQ files)).sum

/-- Specification-side total liabilities. -/
def totalLiabilitiesQ (files : List (List String)) : ℚ :=
  (liabilityAccounts.map (fsValQ files)).sum

/-- Specification-side total equity: every equity-account balance (which
includes the Retained Earnings account) plus net income added once more
as retained earnings. -/
def totalEquityQ (files : List (List String)) : ℚ :=
  (equityAccounts.map (fsValQ files)).sum + netIncomeQ files

/-- NaN-freeness is preserved by JavaScript addition. -/
theorem JsNum.add_ne_nan {x y : JsNum} (hx : x ≠ .nan) (hy : y ≠ .nan) :
    x.add y ≠ .nan := by
  cases x <;> cases y <;> simp_all [JsNum.add]

/-- NaN-freeness is preserved by JavaScript subtraction. -/
theorem JsNum.sub_ne_nan {x y : JsNum} (hx : x ≠ .nan) (hy : y ≠ .nan) :
    x.sub y ≠ .nan := by
  cases x <;> cases y <;> simp_all [JsNum.sub]

/-- On non-NaN operands, the embedded JavaScript addition computes the
rational sum. -/
theorem JsNum.toRat_add {x y : JsNum} (hx : x ≠ .nan) (hy : y ≠ .nan) :
    (x.add y).toRat = x.toRat + y.toRat := by
  cases x with
  | nan => exact absurd rfl hx
  | num a j =>
    cases y with
    | nan => exact absurd rfl hy
    | num b k =>
      have hj : ((10 : ℚ)) ^ j ≠ 0 := by positivity
      have hk : ((10 : ℚ)) ^ k ≠ 0 := by positivity
      simp only [JsNum.add, JsNum.toRat, pow_add]
      push_cast
      field_simp

/-- On non-NaN operands, the embedded JavaScript subtraction computes the
rational difference. -/
theorem JsNum.toRat_sub {x y : JsNum} (hx : x ≠ .nan) (hy : y ≠ .nan) :
    (x.sub y).toRat = x.toRat - y.toRat := by
  cases x with
  | nan => exact absurd rfl hx
  | num a j =>
    cases y with
    | nan => exact absurd rfl hy
    | num b k =>
      have hj : ((10 : ℚ)) ^ j ≠ 0 := by positivity
      have hk : ((10 : ℚ)) ^ k ≠ 0 := by positivity
      simp only [JsNum.sub, JsNum.toRat, pow_add]
      push_cast
      field_simp
      ring

/-- A falsy non-NaN value is the number 0. -/
theorem JsNum.toRat_of_falsy {n : ℤ} {k : ℕ} (h : (JsNum.num n k).falsy = true) :
    (JsNum.num n k).toRat = 0 := by
  simp only [JsNum.falsy, decide_eq_true_eq] at h
  simp [JsNum.toRat, h]

/-- The integer-pair formatter agrees with the specification-side
rational formatter. -/
theorem fmtPair_eq_fmtQ2 (n : ℤ) (k : ℕ) : fmtPair n k = fmtQ2 ((n : ℚ) / 10 ^ k) := by
  have hD : (0 : ℚ) < 10 ^ k := by positivity
  have hlt : (n : ℚ) / 10 ^ k < 0 ↔ n < 0 := by
    rw [div_lt_iff hD, zero_mul]
    exact_mod_cast Iff.rfl
  have habs : |(n : ℚ) / 10 ^ k| * 100 + 1 / 2 =
      ((200 * n.natAbs + 10 ^ k : ℕ) : ℚ) / ((2 * 10 ^ k : ℕ) : ℚ) := by
    rw [abs_div, abs_pow]
    have h10 : |(10 : ℚ)| = 10 := by norm_num
    have hna : |(n : ℚ)| = ((n.natAbs : ℕ) : ℚ) := by
      rw [Nat.cast_natAbs, Int.cast_abs]
    rw [h10, hna]
    push_cast
    field_simp
    ring
  have hfloor : ⌊|(n : ℚ) / 10 ^ k| * 100 + 1 / 2⌋₊ =
      (200 * n.natAbs + 10 ^ k) / (2 * 10 ^ k) := by
    rw [habs, Nat.floor_div_nat, Nat.floor_natCast]
  unfold fmtPair fmtQ2
  by_cases hn : n < 0
  · rw [if_pos hn, if_pos (hlt.mpr hn), hfloor]
  · rw [if_neg hn, if_neg (fun h => hn (hlt.mp h)), hfloor]

/-- `toFixed(2)` of a non-NaN value renders its rational value. -/
theorem JsNum.toFixed2_eq_fmtQ2 {x : JsNum} (hx : x ≠ .nan) :
    x.toFixed2 = fmtQ2 x.toRat := by
  cases x with
  | nan => exact absurd rfl hx
  | num n k => simpa [JsNum.toFixed2, JsNum.toRat] using fmtPair_eq_fmtQ2 n k

/-- Lookup distributes over append, preferring the left list. -/
theorem alookup_append (k : String) (l l' : List (String × JsNum)) :
    alookup k (l ++ l') =
      match alookup k l with
      | some v => some v
      | none => alookup k l' := by
  induction l with
  | nil => simp [alookup]
  | cons p ps ih =>
    by_cases hp : p.1 = k
    · simp [alookup, hp]
    · simp [alookup, hp, ih]

/-- Setting an existing key leaves the key sequence unchanged. -/
theorem map_fst_assocSet (l : List (String × JsNum)) (k : String) (v : JsNum) :
    (assocSet l k v).map Prod.fst = l.map Prod.fst := by
  induction l with
  | nil => rfl
  | cons p ps ih =>
    by_cases hp : p.1 = k
    · simp [assocSet, hp]
    · simp [assocSet, hp, ih]

/-- Setting a present key stores the new value. -/
theorem alookup_assocSet_self (l : List (String × JsNum)) (k : String) (v w : JsNum)
    (h : alookup k l = some w) : alookup k (assocSet l k v) = some v := by
  induction l with
  | nil => simp [alookup] at h
  | cons p ps ih =>
    by_cases hp : p.1 = k
    · simp [assocSet, hp, alookup]
    · simp only [alookup, hp, if_false] at h
      simp [assocSet, hp, alookup, ih h]

/-- Setting one key does not change lookups of other keys. -/
theorem alookup_assocSet_ne (l : List (String × JsNum)) (k : String) (v : JsNum)
    (k' : String) (h : k' ≠ k) : alookup k' (assocSet l k v) = alookup k' l := by
  induction l with
  | nil => rfl
  | cons p ps ih =>
    by_cases hp : p.1 = k
    · have : ¬(k = k') := fun e => h e.symm
      simp [assocSet, hp, alookup, this, hp.symm ▸ this]
    · by_cases hp' : p.1 = k'
      · simp [assocSet, hp, alookup, hp', h]
      · simp [assocSet, hp, alookup, hp', ih]

/-- A key present in the key sequence has a stored value. -/
theorem alookup_some_of_mem (l : List (String × JsNum)) (k : String)
    (h : k ∈ l.map Prod.fst) : ∃ v, alookup k l = some v := by
  induction l with
  | nil => simp at h
  | cons p ps ih =>
    by_cases hp : p.1 = k
    · exact ⟨p.2, by simp [alookup, hp]⟩
    · simp only [List.map_cons, List.mem_cons] at h
      rcases h with h | h
    
      · exact absurd h.symm hp
      · simpa [alookup, hp] using ih h

/-- A key with a stored value occurs in the key sequence. -/
theorem mem_of_alookup_some (l : List (String × JsNum)) (k : String) (v : JsNum)
    (h : alookup k l = some v) : k ∈ l.map Prod.fst := by
  induction l with
  | nil => simp [alookup] at h
  | cons p ps ih =>
    by_cases hp : p.1 = k
    · simp [hp]
    · simp only [alookup, hp, if_false] at h
      simp [ih h]

/-- The per-key sum distributes over append. -/
theorem sumFor_append (k : String) (xs ys : List (String × JsNum)) :
    sumFor k (xs ++ ys) = sumFor k xs + sumFor k ys := by
  induction xs with
  | nil => simp [sumFor]
  | cons p ps ih => simp [sumFor, ih]; ring

/-- The per-key sum of a stream that never uses the key is zero. -/
theorem sumFor_eq_zero (k : String) (keyed : List (String × JsNum))
    (h : ∀ p ∈ keyed, p.1 ≠ k) : sumFor k keyed = 0 := by
  induction keyed with
  | nil => rfl
  | cons p ps ih =>
    have hp := h p (by simp)
    simp [sumFor, hp, ih (fun q hq => h q (by simp [hq]))]

/-- Membership in the generalized first-seen key fold. -/
theorem seenKeys_go_mem (keyed : List (String × JsNum)) (ks : List String) (k : String) :
    k ∈ keyed.foldl (fun ks p => if p.1 ∈ ks then ks else ks ++ [p.1]) ks ↔
      k ∈ ks ∨ ∃ p ∈ keyed, p.1 = k := by
  induction keyed generalizing ks with
  | nil => simp
  | cons p ps ih =>
    simp only [List.foldl_cons, ih]
    by_cases hp : p.1 ∈ ks
    · rw [if_pos hp]
      constructor
      · rintro (h | ⟨q, hq, hk⟩)
        · exact Or.inl h
        · exact Or.inr ⟨q, List.mem_cons_of_mem _ hq, hk⟩
      · rintro (h | ⟨q, hq, hk⟩)
        · exact Or.inl h
        · rcases List.mem_cons.mp hq with rfl | hq'
          · exact Or.inl (hk ▸ hp)
          · exact Or.inr ⟨q, hq', hk⟩
    · rw [if_neg hp]
      constructor
      · rintro (h | ⟨q, hq, hk⟩)
        · rcases List.mem_append.mp h with h' | h'
          · exact Or.inl h'
          · exact Or.inr ⟨p, List.mem_cons_self _ _, (List.mem_singleton.mp h').symm⟩
        · exact Or.inr ⟨q, List.mem_cons_of_mem _ hq, hk⟩
      · rintro (h | ⟨q, hq, hk⟩)
        · exact Or.inl (List.mem_append.mpr (Or.inl h))
        · rcases List.mem_cons.mp hq with rfl | hq'
          · exact Or.inl (List.mem_append.mpr (Or.inr (by simp [hk])))
          · exact Or.inr ⟨q, hq', hk⟩

/-- A key is first-seen iff some stream element carries it. -/
theorem mem_seenKeys (keyed : List (String × JsNum)) (k : String) :
    k ∈ seenKeys keyed ↔ ∃ p ∈ keyed, p.1 = k := by
  simpa using seenKeys_go_mem keyed [] k

/-- The generalized first-seen key fold preserves distinctness. -/
theorem seenKeys_go_nodup (keyed : List (String × JsNum)) (ks : List String)
    (h : ks.Nodup) :
    (keyed.foldl (fun ks p => if p.1 ∈ ks then ks else ks ++ [p.1]) ks).Nodup := by
  induction keyed generalizing ks with
  | nil => exact h
  | cons p ps ih =>
    simp only [List.foldl_cons]
    by_cases hp : p.1 ∈ ks
    · rw [if_pos hp]; exact ih ks h
    · rw [if_neg hp]
      refine ih _ ?_
      simp [List.nodup_append, h, hp]

/-- The first-seen key list has no duplicates. -/
theorem seenKeys_nodup (keyed : List (String × JsNum)) : (seenKeys keyed).Nodup :=
  seenKeys_go_nodup keyed [] List.nodup_nil

/-- One step of the first-seen key list. -/
theorem seenKeys_append (keyed : List (String × JsNum)) (p : String × JsNum) :
    seenKeys (keyed ++ [p]) =
      if p.1 ∈ seenKeys keyed then seenKeys keyed else seenKeys keyed ++ [p.1] := by
  simp [seenKeys, List.foldl_append]

/-- One step of the accumulator fold. -/
theorem accumulate_append (keyed : List (String × JsNum)) (p : String × JsNum) :
    accumulate (keyed ++ [p]) = updateBalance (accumulate keyed) p.1 p.2 := by
  simp [accumulate, List.foldl_append]

/-- Main invariant of the aggregation record: its keys are the stream's
keys in first-seen order, and on a NaN-free stream every stored value is
the rational sum of its key's deltas. -/
theorem accumulate_invariant (keyed : List (String × JsNum))
    (h : ∀ p ∈ keyed, p.2 ≠ JsNum.nan) :
    (accumulate keyed).map Prod.fst = seenKeys keyed ∧
      ∀ k v, alookup k (accumulate keyed) = some v →
        v ≠ JsNum.nan ∧ v.toRat = sumFor k keyed := by
  induction keyed using List.reverseRecOn with
  | nil => exact ⟨rfl, fun k v hv => by simp [accumulate, alookup] at hv⟩
  | append_singleton xs p ih =>
    obtain ⟨k0, d0⟩ := p
    have hxs : ∀ q ∈ xs, q.2 ≠ JsNum.nan := fun q hq => h q (by simp [hq])
    have hd0 : d0 ≠ JsNum.nan := h (k0, d0) (by simp)
    obtain ⟨ihmap, ihval⟩ := ih hxs
    rw [accumulate_append, seenKeys_append]
    unfold updateBalance
    cases hl : alookup k0 (accumulate xs) with
    | none =>
      have hk0 : k0 ∉ seenKeys xs := by
        intro hmem
        rw [← ihmap] at hmem
        obtain ⟨v, hv⟩ := alookup_some_of_mem _ _ hmem
        rw [hv] at hl
        exact Option.noConfusion hl
      rw [if_neg hk0]
      constructor
      · simp [ihmap]
      · intro k v hv
        rw [alookup_append] at hv
        cases hk : alookup k (accumulate xs) with
        | some w =>
          rw [hk] at hv
          simp only at hv
          obtain hv := Option.some.inj hv
          subst hv
          have hkne : k ≠ k0 := by
            intro e
            subst e
            rw [hk] at hl
            exact Option.noConfusion hl
          obtain ⟨hw1, hw2⟩ := ihval k w hk
          refine ⟨hw1, ?_⟩
          rw [sumFor_append]
          have hne : ¬(k0 = k) := fun e => hkne e.symm
          simp [sumFor, hne, hw2]
        | none =>
          rw [hk] at hv
          simp only [alookup] at hv
          by_cases hkk : k0 = k
          · rw [if_pos hkk] at hv
            obtain hv := Option.some.inj hv
            subst hv
            subst hkk
            have hzero : (JsNum.num 0 0) ≠ JsNum.nan := by simp
            refine ⟨JsNum.add_ne_nan hzero hd0, ?_⟩
            rw [JsNum.toRat_add hzero hd0, sumFor_append]
            have hsx : sumFor k0 xs = 0 := by
              refine sumFor_eq_zero _ _ fun q hq e => hk0 ?_
              exact (mem_seenKeys xs k0).mpr ⟨q, hq, e⟩
            simp [sumFor, hsx, JsNum.toRat]
          · rw [if_neg hkk] at hv
            exact Option.noConfusion hv
    | some w =>
      obtain ⟨hw1, hw2⟩ := ihval k0 w hl
      have hk0 : k0 ∈ seenKeys xs := by
        rw [← ihmap]
        exact mem_of_alookup_some _ _ _ hl
      rw [if_pos hk0]
      constructor
      · rw [map_fst_assocSet]
        exact ihmap
      · intro k v hv
        by_cases hkk : k = k0
        · subst hkk
          rw [alookup_assocSet_self _ _ _ _ hl] at hv
          obtain hv := Option.some.inj hv
          subst hv
          have hbase : (if w.falsy then JsNum.num 0 0 else w) ≠ JsNum.nan := by
            by_cases hf : w.falsy
            · simp [hf]
            · simpa [hf] using hw1
          refine ⟨JsNum.add_ne_nan hbase hd0, ?_⟩
          rw [JsNum.toRat_add hbase hd0, sumFor_append]
          have hbase2 : (if w.falsy then JsNum.num 0 0 else w).toRat = sumFor k xs := by
            by_cases hf : w.falsy
            · cases w with
              | nan => exact absurd rfl hw1
              | num n j =>
                rw [if_pos hf]
                rw [← hw2, JsNum.toRat_of_falsy hf]
                simp [JsNum.toRat]
            · rw [if_neg hf, hw2]
          rw [hbase2]
          simp [sumFor]
        · rw [alookup_assocSet_ne _ _ _ _ hkk] at hv
          obtain ⟨hv1, hv2⟩ := ihval k v hv
          refine ⟨hv1, ?_⟩
          rw [sumFor_append]
          have hne : ¬(k0 = k) := fun e => hkk e.symm
          simp [sumFor, hne, hv2]

/-- The nested per-file/per-line loop of the accounts report is the
accumulator fold over the flattened key/delta stream. -/
theorem accountBalancesOf_eq (files : List (List String)) :
    accountBalancesOf files = accumulate (accountsKeyed files.flatten) := by
  suffices h : ∀ acc,
      files.foldl
        (fun acc fileLines =>
          fileLines.foldl (fun a line => updateBalance a (lineKey line) (lineDelta line)) acc)
        acc =
      (accountsKeyed files.flatten).foldl (fun acc p => updateBalance acc p.1 p.2) acc from
    h []
  induction files with
  | nil => intro acc; simp [accountsKeyed]
  | cons l ls ih =>
    intro acc
    have hsplit : accountsKeyed (l :: ls).flatten =
        accountsKeyed l ++ accountsKeyed ls.flatten := by
      simp [accountsKeyed]
    rw [hsplit, List.foldl_append, List.foldl_cons]
    have hinner : (accountsKeyed l).foldl (fun acc p => updateBalance acc p.1 p.2) acc =
        l.foldl (fun a line => updateBalance a (lineKey line) (lineDelta line)) acc := by
      rw [accountsKeyed, List.foldl_map]
    rw [hinner]
    exact ih _

/-- An association list with the right key sequence and the right stored
values is the tabulation of its value function over its keys. -/
theorem assoc_eq_map (l : List (String × JsNum)) (ks : List String) (f : String → JsNum)
    (hmap : l.map Prod.fst = ks) (hnd : ks.Nodup)
    (hval : ∀ k ∈ ks, alookup k l = some (f k)) :
    l = ks.map (fun k => (k, f k)) := by
  induction l generalizing ks with
  | nil =>
    subst hmap
    rfl
  | cons p ps ih =>
    subst hmap
    simp only [List.map_cons] at hnd ⊢
    have hnd' := List.nodup_cons.mp hnd
    have hp := hval p.1 (by simp)
    rw [alookup] at hp
    rw [if_pos rfl] at hp
    obtain hp := (Option.some.inj hp).symm
    have htail : ∀ k ∈ ps.map Prod.fst, alookup k ps = some (f k) := by
      intro k hk
      have hne : p.1 ≠ k := fun e => hnd'.1 (e ▸ hk)
      have := hval k (by simp [hk])
      rw [alookup, if_neg hne] at this
      exact this
    rw [← ih (ps.map Prod.fst) rfl hnd'.2 htail]
    have : p = (p.1, f p.1) := by
      obtain ⟨a, b⟩ := p
      simp only [Prod.mk.injEq]
      exact ⟨trivial, hp.symm⟩
    rw [← this]

/-- On well-formed lines, the per-key delta sum of the accounts stream is
the debit sum minus the credit sum. -/
theorem sumFor_accountsKeyed (ls : List String) (h : ∀ l ∈ ls, wellFormedLine l)
    (k : String) :
    sumFor k (accountsKeyed ls) = sumDebits k ls - sumCredits k ls := by
  induction ls with
  | nil => simp [accountsKeyed, sumFor, sumDebits, sumCredits]
  | cons l ls ih =>
    obtain ⟨hd, hc⟩ := h l (by simp)
    have ihh := ih (fun q hq => h q (by simp [hq]))
    simp only [accountsKeyed, List.map_cons, sumFor, sumDebits, sumCredits] at ihh ⊢
    rw [ihh]
    by_cases hk : lineKey l = k
    · rw [if_pos hk, if_pos hk, if_pos hk, lineDelta, JsNum.toRat_sub hd hc]
      ring
    · rw [if_neg hk, if_neg hk, if_neg hk]
      ring

/-- C6.  Trial-balance report: for every input file set whose lines all
have parseable (or absent) debit and credit fields, the output is the
header `Account,Balance` followed by exactly one row per distinct account
in first-seen order over all lines of all files, each row showing the
account's debit sum minus credit sum to two decimal places; and on the
rows `(_,A,_,100,0)`, `(_,A,_,0,40)` account A shows 60.00. -/
theorem c6_trial_balance_report :
    (∀ files : List (List String), (∀ l ∈ files.flatten, wellFormedLine l) →
        accountsReportLines files =
          "Account,Balance" ::
            (seenKeys (accountsKeyed files.flatten)).map
              (fun k => k ++ "," ++
                fmtQ2 (sumDebits k files.flatten - sumCredits k files.flatten))) ∧
      accountsReportLines [["x,A,y,100,0", "x,A,y,0,40"]] = ["Account,Balance", "A,60.00"] := by
  constructor
  · intro files hWF
    have hnn : ∀ p ∈ accountsKeyed files.flatten, p.2 ≠ JsNum.nan := by
      intro p hp
      obtain ⟨l, hl, rfl⟩ := List.mem_map.mp hp
      obtain ⟨hd, hc⟩ := hWF l hl
      exact JsNum.sub_ne_nan hd hc
    obtain ⟨hmap, hval⟩ := accumulate_invariant _ hnn
    rw [accountsReportLines, accountBalancesOf_eq]
    congr 1
    have hsome : ∀ k ∈ seenKeys (accountsKeyed files.flatten),
        alookup k (accumulate (accountsKeyed files.flatten)) =
          some ((alookup k (accumulate (accountsKeyed files.flatten))).getD JsNum.nan) := by
      intro k hk
      rw [← hmap] at hk
      obtain ⟨v, hv⟩ := alookup_some_of_mem _ _ hk
      rw [hv]
      rfl
    have hassoc := assoc_eq_map (accumulate (accountsKeyed files.flatten))
      (seenKeys (accountsKeyed files.flatten))
      (fun k => (alookup k (accumulate (accountsKeyed files.flatten))).getD JsNum.nan)
      hmap (seenKeys_nodup _) hsome
    rw [hassoc, List.map_map]
    refine List.map_congr_left ?_
    intro k hk
    obtain hv := hsome k hk
    set v := (alookup k (accumulate (accountsKeyed files.flatten))).getD JsNum.nan with hvdef
    obtain ⟨hv1, hv2⟩ := hval k v hv
    simp only [Function.comp]
    rw [JsNum.toFixed2_eq_fmtQ2 hv1, hv2, sumFor_accountsKeyed files.flatten hWF k]
  · decide

/-- Witness for C6: the universally quantified part applied to a concrete
two-line input whose well-formedness is decided. -/
theorem c6_trial_balance_report_witness :
    accountsReportLines [["x,A,y,100,0", "x,A,y,0,40"]] =
      "Account,Balance" ::
        (seenKeys (accountsKeyed [["x,A,y,100,0", "x,A,y,0,40"]].flatten)).map
          (fun k => k ++ "," ++
            fmtQ2 (sumDebits k [["x,A,y,100,0", "x,A,y,0,40"]].flatten -
              sumCredits k [["x,A,y,100,0", "x,A,y,0,40"]].flatten)) :=
  c6_trial_balance_report.1 [["x,A,y,100,0", "x,A,y,0,40"]] (by decide)

/-- Nothing is below the empty string. -/
theorem jsStrLtB_nil_right (as : List Char) : jsStrLtB as [] = false := by
  cases as <;> rfl

/-- The code-unit order is asymmetric. -/
theorem jsStrLtB_asymm : ∀ as bs : List Char,
    jsStrLtB as bs = true → jsStrLtB bs as = false := by
  intro as
  induction as with
  | nil =>
    intro bs h
    exact jsStrLtB_nil_right bs
  | cons a as ih =>
    intro bs h
    cases bs with
    | nil => simp [jsStrLtB] at h
    | cons b bs =>
      simp only [jsStrLtB] at h ⊢
      by_cases h1 : a.toNat < b.toNat
      · rw [if_neg (show ¬b.toNat < a.toNat by omega), if_pos h1]
      · rw [if_neg h1] at h
        by_cases h2 : b.toNat < a.toNat
        · rw [if_pos h2] at h
          exact absurd h (by simp)
        · rw [if_neg h2] at h
          rw [if_neg h2, if_neg h1]
          exact ih bs h

/-- The non-strict code-unit order is transitive (stated on the strict
order's negation, as the sort comparator uses it). -/
theorem jsStrLtB_false_trans : ∀ as bs cs : List Char,
    jsStrLtB bs as = false → jsStrLtB cs bs = false → jsStrLtB cs as = false := by
  intro as
  induction as with
  | nil =>
    intro bs cs h1 h2
    exact jsStrLtB_nil_right cs
  | cons a as ih =>
    intro bs cs h1 h2
    cases bs with
    | nil => simp [jsStrLtB] at h1
    | cons b bs =>
      cases cs with
      | nil => simp [jsStrLtB] at h2
      | cons c cs =>
        simp only [jsStrLtB] at h1 h2 ⊢
        by_cases hba : b.toNat < a.toNat
        · rw [if_pos hba] at h1
          exact absurd h1 (by simp)
        · rw [if_neg hba] at h1
          by_cases hcb : c.toNat < b.toNat
          · rw [if_pos hcb] at h2
            exact absurd h2 (by simp)
          · rw [if_neg hcb] at h2
            rw [if_neg (show ¬c.toNat < a.toNat by omega)]
            by_cases hac : a.toNat < c.toNat
            · rw [if_pos hac]
            · rw [if_neg hac]
              have hab : ¬a.toNat < b.toNat := by omega
              have hbc : ¬b.toNat < c.toNat := by omega
              rw [if_neg hab] at h1
              rw [if_neg hbc] at h2
              exact ih bs cs h1 h2

/-- The yearly report's inner per-line loop is the accumulator fold over
the Cash-filtered key/delta stream of the file. -/
theorem yearly_inner (l : List String) (acc : List (String × JsNum)) :
    l.foldl
      (fun a line =>
        if lineKey line = "Cash" then updateBalance a (yearKey line) (lineDelta line) else a)
      acc =
    (yearlyKeyed l).foldl (fun acc p => updateBalance acc p.1 p.2) acc := by
  induction l generalizing acc with
  | nil => simp [yearlyKeyed]
  | cons x xs ih =>
    by_cases hx : lineKey x = "Cash"
    · have hcash : isCashLine x = true := by simp [isCashLine, hx]
      simp only [List.foldl_cons, if_pos hx, yearlyKeyed, List.filter_cons, hcash,
        if_pos, List.map_cons]
      exact ih _
    · have hcash : ¬isCashLine x = true := by simp [isCashLine, hx]
      simp only [List.foldl_cons, if_neg hx, yearlyKeyed, List.filter_cons,
        Bool.not_eq_true] at hcash ⊢
      rw [hcash]
      exact ih acc

/-- The nested per-file/per-line loop of the yearly report is the
accumulator fold over the flattened Cash key/delta stream. -/
theorem yearlyMap_eq (files : List (List String)) :
    yearlyMap files = accumulate (yearlyKeyed files.flatten) := by
  suffices h : ∀ acc,
      files.foldl
        (fun acc fileLines =>
          fileLines.foldl
            (fun a line =>
              if lineKey line = "Cash" then updateBalance a (yearKey line) (lineDelta line)
              else a)
            acc)
        acc =
      (yearlyKeyed files.flatten).foldl (fun acc p => updateBalance acc p.1 p.2) acc from
    h []
  induction files with
  | nil => intro acc; simp [yearlyKeyed]
  | cons l ls ih =>
    intro acc
    have hsplit : yearlyKeyed (l :: ls).flatten = yearlyKeyed l ++ yearlyKeyed ls.flatten := by
      simp [yearlyKeyed, List.filter_append]
    have h1 := yearly_inner l acc
    rw [hsplit, List.foldl_append, List.foldl_cons, ← h1]
    exact ih _

/-- On well-formed Cash lines, the per-year delta sum of the yearly
stream is the Cash debit-minus-credit sum of that year. -/
theorem sumFor_yearlyKeyed (ls : List String)
    (h : ∀ l ∈ ls, lineKey l = "Cash" → wellFormedLine l) (y : String) :
    sumFor y (yearlyKeyed ls) = cashYearSum y ls := by
  induction ls with
  | nil => simp [yearlyKeyed, sumFor, cashYearSum]
  | cons l ls ih =>
    have ihh := ih (fun q hq hcq => h q (by simp [hq]) hcq)
    by_cases hx : lineKey l = "Cash"
    · have hcash : isCashLine l = true := by simp [isCashLine, hx]
      obtain ⟨hd, hc⟩ := h l (by simp) hx
      simp only [yearlyKeyed, cashYearSum, List.filter_cons, hcash, if_pos, List.map_cons,
        sumFor] at ihh ⊢
      rw [ihh]
      by_cases hy : yearKey l = y
      · rw [if_pos hy, if_pos (And.intro hx hy), lineDelta, JsNum.toRat_sub hd hc]
      · rw [if_neg hy, if_neg (fun hh : lineKey l = "Cash" ∧ yearKey l = y => hy hh.2)]
    · have hcash : ¬isCashLine l = true := by simp [isCashLine, hx]
      simp only [yearlyKeyed, cashYearSum, List.filter_cons_of_neg hcash, sumFor] at ihh ⊢
      rw [ihh]
      rw [if_neg (fun hh : lineKey l = "Cash" ∧ yearKey l = y => hx hh.1)]
      ring

/-- C7.  Yearly cash report: only lines with account "Cash" are
considered, bucketed by the calendar year of the date field, accumulating
debit minus credit per year; the output is the header followed by one row
per year in ascending lexicographic order; on the two example rows the
output is 2023,100.00 then 2024,-30.00; and lines with other account
names never affect the output. -/
theorem c7_yearly_cash_report :
    (∀ files : List (List String),
        (∀ l ∈ files.flatten, lineKey l = "Cash" → wellFormedLine l) →
        (yearlyReportLines files =
          "Financial Year,Cash Balance" ::
            (List.insertionSort (fun a b : String => jsStrLtB b.data a.data = false)
                (seenKeys (yearlyKeyed files.flatten))).map
              (fun y => y ++ "," ++ fmtQ2 (cashYearSum y files.flatten))) ∧
        (List.insertionSort (fun a b : String => jsStrLtB b.data a.data = false)
            (seenKeys (yearlyKeyed files.flatten))).Sorted
          (fun a b : String => jsStrLtB b.data a.data = false) ∧
        (List.insertionSort (fun a b : String => jsStrLtB b.data a.data = false)
            (seenKeys (yearlyKeyed files.flatten))).Nodup) ∧
      (∀ files₁ files₂ : List (List String),
        files₁.flatten.filter isCashLine = files₂.flatten.filter isCashLine →
        yearlyReportLines files₁ = yearlyReportLines files₂) ∧
      yearlyReportLines [["2023-01-01,Cash,x,100,0", "2024-05-01,Cash,x,0,30"]] =
        ["Financial Year,Cash Balance", "2023,100.00", "2024,-30.00"] := by
  refine ⟨?_, ?_, by decide⟩
  · intro files hWF
    have hnn : ∀ p ∈ yearlyKeyed files.flatten, p.2 ≠ JsNum.nan := by
      intro p hp
      obtain ⟨l, hl, rfl⟩ := List.mem_map.mp hp
      obtain ⟨hl1, hl2⟩ := List.mem_filter.mp hl
      have hcash : lineKey l = "Cash" := by simpa [isCashLine] using hl2
      obtain ⟨hd, hc⟩ := hWF l hl1 hcash
      exact JsNum.sub_ne_nan hd hc
    obtain ⟨hmap, hval⟩ := accumulate_invariant _ hnn
    refine ⟨?_, ?_, ?_⟩
    · unfold yearlyReportLines
      rw [yearlyMap_eq, hmap]
      congr 1
      refine List.map_congr_left ?_
      intro y hy
      have hy' : y ∈ seenKeys (yearlyKeyed files.flatten) :=
        (List.mem_insertionSort _).mp hy
      rw [← hmap] at hy'
      obtain ⟨v, hv⟩ := alookup_some_of_mem _ _ hy'
      obtain ⟨hv1, hv2⟩ := hval y v hv
      rw [hv]
      simp only [Option.getD_some]
      rw [JsNum.toFixed2_eq_fmtQ2 hv1, hv2, sumFor_yearlyKeyed files.flatten hWF y]
    · have htot : IsTotal String (fun a b : String => jsStrLtB b.data a.data = false) :=
        ⟨fun a b => by
          cases h : jsStrLtB b.data a.data
          · exact Or.inl rfl
          · exact Or.inr (jsStrLtB_asymm _ _ h)⟩
      have htrans : IsTrans String (fun a b : String => jsStrLtB b.data a.data = false) :=
        ⟨fun a b c h1 h2 => jsStrLtB_false_trans a.data b.data c.data h1 h2⟩
      exact @List.sorted_insertionSort String
        (fun a b : String => jsStrLtB b.data a.data = false) _ htot htrans _
    · exact (List.perm_insertionSort
        (fun a b : String => jsStrLtB b.data a.data = false)
        (seenKeys (yearlyKeyed files.flatten))).nodup_iff.mpr (seenKeys_nodup _)
  · intro f1 f2 h
    have h1 : yearlyMap f1 = yearlyMap f2 := by
      rw [yearlyMap_eq, yearlyMap_eq]
      unfold yearlyKeyed
      rw [h]
    unfold yearlyReportLines
    rw [h1]

/-- Witness for C7: the universally quantified part applied to the
example input, its well-formedness hypothesis decided. -/
theorem c7_yearly_cash_report_witness :
    yearlyReportLines [["2023-01-01,Cash,x,100,0", "2024-05-01,Cash,x,0,30"]] =
      "Financial Year,Cash Balance" ::
        (List.insertionSort (fun a b : String => jsStrLtB b.data a.data = false)
            (seenKeys
              (yearlyKeyed [["2023-01-01,Cash,x,100,0", "2024-05-01,Cash,x,0,30"]].flatten))).map
          (fun y => y ++ "," ++
            fmtQ2 (cashYearSum y
              [["2023-01-01,Cash,x,100,0", "2024-05-01,Cash,x,0,30"]].flatten)) :=
  (c7_yearly_cash_report.1 [["2023-01-01,Cash,x,100,0", "2024-05-01,Cash,x,0,30"]]
    (by decide)).1

/-- The displayed value of a taxonomy account is never NaN (the `|| 0`
coercion removes it). -/
theorem fsVal_ne_nan (files : List (List String)) (a : String) :
    fsVal files a ≠ .nan := by
  unfold fsVal
  cases fsBalance files a with
  | nan => simp
  | num n k =>
    by_cases h : n = 0 <;> simp [h]

/-- Folding JavaScript addition from a non-NaN start over non-NaN values
stays non-NaN and computes the rational sum. -/
theorem sumJs_go (l : List JsNum) (acc : JsNum) (hacc : acc ≠ .nan)
    (h : ∀ x ∈ l, x ≠ .nan) :
    l.foldl JsNum.add acc ≠ .nan ∧
      (l.foldl JsNum.add acc).toRat = acc.toRat + (l.map JsNum.toRat).sum := by
  induction l generalizing acc with
  | nil => simpa using hacc
  | cons x xs ih =>
    have hx : x ≠ .nan := h x (by simp)
    have hacc' : JsNum.add acc x ≠ .nan := JsNum.add_ne_nan hacc hx
    obtain ⟨ih1, ih2⟩ := ih (JsNum.add acc x) hacc' (fun y hy => h y (by simp [hy]))
    refine ⟨ih1, ?_⟩
    rw [List.foldl_cons, ih2, JsNum.toRat_add hacc hx]
    simp only [List.map_cons, List.sum_cons]
    ring

/-- The `total… += value` loops compute the rational sum of the displayed
values of their account list. -/
theorem sumJs_fsVals (files : List (List String)) (accts : List String) :
    sumJs (accts.map (fsVal files)) ≠ .nan ∧
      (sumJs (accts.map (fsVal files))).toRat = (accts.map (fsValQ files)).sum := by
  have h : ∀ x ∈ accts.map (fsVal files), x ≠ JsNum.nan := by
    intro x hx
    obtain ⟨a, _, rfl⟩ := List.mem_map.mp hx
    exact fsVal_ne_nan files a
  obtain ⟨h1, h2⟩ := sumJs_go (accts.map (fsVal files)) (.num 0 0) (by simp) h
  refine ⟨h1, ?_⟩
  have h0 : (JsNum.num 0 0).toRat = 0 := by norm_num [JsNum.toRat]
  rw [sumJs, h2, h0, List.map_map, zero_add]
  rfl

/-- Net income is NaN-free and equals the specification-side value. -/
theorem netIncomeJs_spec (files : List (List String)) :
    netIncomeJs files ≠ .nan ∧ (netIncomeJs files).toRat = netIncomeQ files := by
  obtain ⟨hr1, hr2⟩ := sumJs_fsVals files revenueAccounts
  obtain ⟨he1, he2⟩ := sumJs_fsVals files expenseAccounts
  refine ⟨JsNum.sub_ne_nan hr1 he1, ?_⟩
  rw [netIncomeJs, totalRevenueJs, totalExpensesJs, JsNum.toRat_sub hr1 he1, hr2, he2,
    netIncomeQ]

/-- Total equity is NaN-free and equals the specification-side value
(equity-account balances plus net income). -/
theorem totalEquityJs_spec (files : List (List String)) :
    totalEquityJs files ≠ .nan ∧ (totalEquityJs files).toRat = totalEquityQ files := by
  obtain ⟨hq1, hq2⟩ := sumJs_fsVals files equityAccounts
  obtain ⟨hn1, hn2⟩ := netIncomeJs_spec files
  refine ⟨JsNum.add_ne_nan hq1 hn1, ?_⟩
  rw [totalEquityJs, JsNum.toRat_add hq1 hn1, hq2, hn2, totalEquityQ]

/-- C8.  Financial statement: the Total Assets line shows the sum of the
taxonomy's asset-account balances; the closing reconciliation line is the
last line of every report, its right-hand value is totalLiabilities +
totalEquity by construction, and the report is produced even when the two
sides differ, as on the single line `x,Cash,y,100,0` where it reads
`100.00 = 0.00`. -/
theorem c8_fs_reconciliation :
    (∀ files : List (List String),
        (fsReportLines files).getLast? =
          some ("Assets = Liabilities + Equity, " ++ fmtQ2 (totalAssetsQ files) ++ " = " ++
            fmtQ2 (totalLiabilitiesQ files + totalEquityQ files)) ∧
        ("Total Assets," ++ fmtQ2 (totalAssetsQ files)) ∈ fsReportLines files ∧
        totalAssetsQ files = (assetAccounts.map (fsValQ files)).sum) ∧
      (fsReportLines [["x,Cash,y,100,0"]]).getLast? =
        some "Assets = Liabilities + Equity, 100.00 = 0.00" ∧
      "100.00" ≠ "0.00" := by
  refine ⟨?_, by decide, by decide⟩
  intro files
  obtain ⟨ha1, ha2⟩ := sumJs_fsVals files assetAccounts
  obtain ⟨hl1, hl2⟩ := sumJs_fsVals files liabilityAccounts
  obtain ⟨he1, he2⟩ := totalEquityJs_spec files
  have hassets : (totalAssetsJs files).toFixed2 = fmtQ2 (totalAssetsQ files) := by
    rw [totalAssetsJs, JsNum.toFixed2_eq_fmtQ2 ha1, ha2, totalAssetsQ]
  have hrhs : ((totalLiabilitiesJs files).add (totalEquityJs files)).toFixed2 =
      fmtQ2 (totalLiabilitiesQ files + totalEquityQ files) := by
    rw [totalLiabilitiesJs, JsNum.toFixed2_eq_fmtQ2 (JsNum.add_ne_nan hl1 he1),
      JsNum.toRat_add hl1 he1, hl2, he2, totalLiabilitiesQ]
  refine ⟨?_, ?_, rfl⟩
  · rw [fsReportLines, List.getLast?_append]
    simp only [List.getLast?]
    rw [hassets, hrhs]
    rfl
  · rw [← hassets, fsReportLines]
    exact List.mem_append_left _ (List.mem_append_left _ (List.mem_append_left _
      (List.mem_append_left _ (List.mem_append_right _ (by exact List.mem_cons_self _ _)))))

/-- C10.  Retained Earnings is itself a taxonomy equity account, so total
equity contains both its accumulated balance (shown as an Equity row) and
net income again as the separate Retained Earnings (Net Income) row; on
the single line `x,Retained Earnings,y,50,0` the report shows the 50.00
balance row, the 0.00 net-income row, and Total Equity 50.00. -/
theorem c10_retained_earnings_double_count :
    "Retained Earnings" ∈ equityAccounts ∧
      (∀ files : List (List String),
        totalEquityQ files =
          fsValQ files "Common Stock" + fsValQ files "Retained Earnings" + netIncomeQ files ∧
        ("Retained Earnings," ++ fmtQ2 (fsValQ files "Retained Earnings")) ∈
          fsReportLines files ∧
        ("Retained Earnings (Net Income)," ++ fmtQ2 (netIncomeQ files)) ∈
          fsReportLines files) ∧
      "Retained Earnings,50.00" ∈ fsReportLines [["x,Retained Earnings,y,50,0"]] ∧
      "Retained Earnings (Net Income),0.00" ∈ fsReportLines [["x,Retained Earnings,y,50,0"]] ∧
      "Total Equity,50.00" ∈ fsReportLines [["x,Retained Earnings,y,50,0"]] := by
  refine ⟨by decide, ?_, by decide, by decide, by decide⟩
  intro files
  refine ⟨?_, ?_, ?_⟩
  · rw [totalEquityQ, equityAccounts]
    simp only [List.map_cons, List.map_nil, List.sum_cons, List.sum_nil]
    ring
  · have hb : (fsVal files "Retained Earnings").toFixed2 =
        fmtQ2 (fsValQ files "Retained Earnings") :=
      JsNum.toFixed2_eq_fmtQ2 (fsVal_ne_nan files "Retained Earnings")
    have hrow : ("Retained Earnings," ++ fmtQ2 (fsValQ files "Retained Earnings")) ∈
        equityAccounts.map (fun a => a ++ "," ++ (fsVal files a).toFixed2) := by
      refine List.mem_map.mpr ⟨"Retained Earnings", by decide, ?_⟩
      rw [hb]
      rfl
    rw [fsReportLines]
    exact List.mem_append_left _ (List.mem_append_right _ hrow)
  · have hn := netIncomeJs_spec files
    have hb : (netIncomeJs files).toFixed2 = fmtQ2 (netIncomeQ files) := by
      rw [JsNum.toFixed2_eq_fmtQ2 hn.1, hn.2]
    rw [fsReportLines, ← hb]
    exact List.mem_append_right _ (by exact List.mem_cons_self _ _)

/-- Counterexample to C3: after the rows `(x,A,y,100,0)` and
`(x,A,y,abc,0)` the account A prints NaN, not the sum 100.00 of its
well-formed fields: a malformed numeric field does not contribute 0. -/
theorem c3_counterexample :
    accountsReportLines [["x,A,y,100,0", "x,A,y,abc,0"]] = ["Account,Balance", "A,NaN"] ∧
      accountsReportLines [["x,A,y,100,0", "x,A,y,abc,0"]] ≠
        ["Account,Balance", "A,100.00"] := by
  constructor
  · decide
  · decide

/-- C3 as amended: a missing or empty debit/credit field parses as 0, but
a malformed (non-numeric) field parses to NaN, which propagates through
the line delta and the accumulated balance (printed as NaN); a later line
for the same account resets the falsy NaN balance to 0, discarding the
earlier sums; in the fs report a NaN balance is coerced to 0 at display
time by `|| 0`; no exception is raised in any case. -/
theorem c3_amended_forgiving_parsing :
    numField none = .num 0 0 ∧
      numField (some "") = .num 0 0 ∧
      parseFloat "abc" = .nan ∧
      (∀ y : JsNum, JsNum.nan.sub y = .nan) ∧
      (∀ x : JsNum, JsNum.sub x .nan = .nan) ∧
      accountsReportLines [["x,A,y,100,0", "x,A,y,abc,0"]] = ["Account,Balance", "A,NaN"] ∧
      accountsReportLines [["x,A,y,100,0", "x,A,y,abc,0", "x,A,y,5,0"]] =
        ["Account,Balance", "A,5.00"] ∧
      fsVal [["x,Cash,y,abc,0"]] "Cash" = .num 0 0 := by
  refine ⟨by decide, by decide, by decide, fun y => by cases y <;> rfl,
    fun x => by cases x <;> rfl, by decide, by decide, by decide⟩

/-- Counterexample to C4: a company whose only registrationAddressChange
ticket is resolved (no open one exists) still has its create call
rejected by the duplicate check, because the query has no status
filter. -/
theorem c4_counterexample :
    (let m : Model :=
      ⟨[⟨1⟩], [⟨10, .corporateSecretary, 1, 5⟩],
        [⟨100, .registrationAddressChange, .corporate, .resolved, 1, 10⟩], 101⟩
     createTicket m ⟨some .registrationAddressChange, 1⟩ =
        (m, .error (.conflict
          "A registrationAddressChange ticket already exists for this company")) ∧
       ∀ t ∈ m.tickets, t.status = TicketStatus.resolved) := by
  decide

/-- C4 as amended: for an existing company, createTicket of type
registrationAddressChange is rejected by the duplicate conflict exactly
when the company has any registrationAddressChange ticket, of any
status. -/
theorem c4_amended_duplicate_check (m : Model) (cid : ℕ)
    (hc : companyExists m cid = true) (h0 : cid ≠ 0) :
    (createTicket m ⟨some .registrationAddressChange, cid⟩).2 =
        .error (.conflict "A registrationAddressChange ticket already exists for this company") ↔
      hasRacTicket m cid = true := by
  simp only [createTicket]
  rw [if_neg h0, if_neg (by simp [hc])]
  by_cases hr : hasRacTicket m cid = true
  · rw [if_pos (by exact ⟨trivial, hr⟩)]
    exact ⟨fun _ => hr, fun _ => rfl⟩
  · rw [if_neg (fun hh => hr hh.2), if_neg (by decide), if_neg (by decide)]
    constructor
    · intro h
      exfalso
      by_cases hs1 : (usersWith m cid .corporateSecretary).length = 1
      · rw [if_pos hs1] at h
        simp only [finishCreate] at h
        cases horder : orderByCreatedAtDesc (usersWith m cid .corporateSecretary) with
        | nil =>
          rw [horder] at h
          simp at h
          exact absurd h (by decide)
        | cons a rest => rw [horder] at h; simp at h
      · rw [if_neg hs1] at h
        by_cases hs2 : (usersWith m cid .corporateSecretary).length > 1
        · rw [if_pos hs2] at h
          simp at h
        · rw [if_neg hs2] at h
          by_cases hd1 : (usersWith m cid .director).length = 1
          · rw [if_pos hd1] at h
            simp only [finishCreate] at h
            cases horder : orderByCreatedAtDesc (usersWith m cid .director) with
            | nil =>
              rw [horder] at h
              simp at h
              exact absurd h (by decide)
            | cons a rest => rw [horder] at h; simp at h
          · rw [if_neg hd1] at h
            by_cases hd2 : (usersWith m cid .director).length > 1
            · rw [if_pos hd2] at h
              simp at h
            · rw [if_neg hd2] at h
              simp at h
    · intro h
      exact absurd h hr

/-- Witness for C4's amended theorem at the counterexample model: the
duplicate conflict fires exactly because a (resolved)
registrationAddressChange ticket exists. -/
theorem c4_amended_duplicate_check_witness :
    (createTicket
        ⟨[⟨1⟩], [⟨10, .corporateSecretary, 1, 5⟩],
          [⟨100, .registrationAddressChange, .corporate, .resolved, 1, 10⟩], 101⟩
        ⟨some .registrationAddressChange, 1⟩).2 =
        .error (.conflict "A registrationAddressChange ticket already exists for this company") ↔
      hasRacTicket
        ⟨[⟨1⟩], [⟨10, .corporateSecretary, 1, 5⟩],
          [⟨100, .registrationAddressChange, .corporate, .resolved, 1, 10⟩], 101⟩ 1 = true :=
  c4_amended_duplicate_check _ 1 (by decide) (by decide)

/-- C9.  Whenever createTicket returns an error, the persistent state is
unchanged: no ticket is created and no ticket status is modified (the
strikeOff bulk resolve happens only after director uniqueness is
confirmed, after which no error path remains before ticket creation). -/
theorem c9_no_effect_on_error (m : Model) (dto : NewTicketDto) (e : TicketErr)
    (h : (createTicket m dto).2 = .error e) : (createTicket m dto).1 = m := by
  obtain ⟨oty, cid⟩ := dto
  cases oty with
  | none => rfl
  | some ty =>
    simp only [createTicket] at h ⊢
    by_cases h0 : cid = 0
    · rw [if_pos h0]
    · rw [if_neg h0] at h ⊢
      by_cases hex : companyExists m cid = false
      · rw [if_pos hex]
      · rw [if_neg hex] at h ⊢
        by_cases hdup : ty = .registrationAddressChange ∧ hasRacTicket m cid = true
        · rw [if_pos hdup]
        · rw [if_neg hdup] at h ⊢
          by_cases hmr : ty = .managementReport
          · rw [if_pos hmr] at h ⊢
            simp only [finishCreate] at h ⊢
            cases horder : orderByCreatedAtDesc (usersWith m cid .accountant) with
            | nil => rfl
            | cons a rest =>
              rw [horder] at h
              simp at h
          · rw [if_neg hmr] at h ⊢
            by_cases hso : ty = .strikeOff
            · rw [if_pos hso] at h ⊢
              by_cases hd1 : (usersWith m cid .director).length = 1
              · rw [if_pos hd1] at h ⊢
                simp only [finishCreate] at h ⊢
                have husers : usersWith { m with tickets := resolveOtherTickets cid m.tickets }
                    cid .director = usersWith m cid .director := rfl
                rw [husers] at h ⊢
                cases horder : orderByCreatedAtDesc (usersWith m cid .director) with
                | nil =>
                  have hlen : (orderByCreatedAtDesc (usersWith m cid .director)).length = 1 := by
                    rw [orderByCreatedAtDesc, List.length_insertionSort]
                    exact hd1
                  rw [horder] at hlen
                  simp at hlen
                | cons a rest =>
                  rw [horder] at h
                  simp at h
              · rw [if_neg hd1] at h ⊢
                by_cases hd2 : (usersWith m cid .director).length > 1
                · rw [if_pos hd2]
                · rw [if_neg hd2]
            · rw [if_neg hso] at h ⊢
              by_cases hs1 : (usersWith m cid .corporateSecretary).length = 1
              · rw [if_pos hs1] at h ⊢
                simp only [finishCreate] at h ⊢
                cases horder : orderByCreatedAtDesc (usersWith m cid .corporateSecretary) with
                | nil => rfl
                | cons a rest =>
                  rw [horder] at h
                  simp at h
              · rw [if_neg hs1] at h ⊢
                by_cases hs2 : (usersWith m cid .corporateSecretary).length > 1
                · rw [if_pos hs2]
                · rw [if_neg hs2] at h ⊢
                  by_cases hd1 : (usersWith m cid .director).length = 1
                  · rw [if_pos hd1] at h ⊢
                    simp only [finishCreate] at h ⊢
                    cases horder : orderByCreatedAtDesc (usersWith m cid .director) with
                    | nil => rfl
                    | cons a rest =>
                      rw [horder] at h
                      simp at h
                  · rw [if_neg hd1] at h ⊢
                    by_cases hd2 : (usersWith m cid .director).length > 1
                    · rw [if_pos hd2]
                    · rw [if_neg hd2]

/-- Witness for C9 at a concrete failing call: creating a ticket for an
absent company errors and leaves the model unchanged. -/
theorem c9_no_effect_on_error_witness :
    (createTicket ⟨[⟨1⟩], [], [], 1⟩ ⟨some .managementReport, 2⟩).1 =
      ⟨[⟨1⟩], [], [], 1⟩ :=
  c9_no_effect_on_error ⟨[⟨1⟩], [], [], 1⟩ ⟨some .managementReport, 2⟩
    (.notFound "Company not found") (by decide)

/-- The descending-creation sort starts with the unique most recently
created user. -/
theorem orderByCreatedAtDesc_head (us : List User) (u : User) (hu : u ∈ us)
    (hmax : ∀ v ∈ us, v ≠ u → v.createdAt < u.createdAt) :
    ∃ rest, orderByCreatedAtDesc us = u :: rest := by
  have hmem : u ∈ orderByCreatedAtDesc us := by
    rw [orderByCreatedAtDesc]
    exact (List.mem_insertionSort _).mpr hu
  have hsorted : List.Sorted (fun a b : User => b.createdAt ≤ a.createdAt)
      (orderByCreatedAtDesc us) := by
    rw [orderByCreatedAtDesc]
    have htot : IsTotal User (fun a b : User => b.createdAt ≤ a.createdAt) :=
      ⟨fun a b => Nat.le_total _ _⟩
    have htr : IsTrans User (fun a b : User => b.createdAt ≤ a.createdAt) :=
      ⟨fun a b c h1 h2 => le_trans h2 h1⟩
    exact @List.sorted_insertionSort User _ _ htot htr us
  cases hs : orderByCreatedAtDesc us with
  | nil =>
    rw [hs] at hmem
    simp at hmem
  | cons h t =>
    rw [hs] at hmem hsorted
    rcases List.mem_cons.mp hmem with rfl | hut
    · exact ⟨t, rfl⟩
    · have hhu : u.createdAt ≤ h.createdAt := (List.sorted_cons.mp hsorted).1 u hut
      have hhmem : h ∈ us := by
        have : h ∈ orderByCreatedAtDesc us := by
          rw [hs]
          simp
        rw [orderByCreatedAtDesc] at this
        exact (List.mem_insertionSort _).mp this
      by_cases hhu2 : h = u
      · subst hhu2
        exact ⟨t, rfl⟩
      · have := hmax h hhmem hhu2
        omega

/-- C1.  strikeOff creation on an existing company: with exactly one
director the call succeeds and replaces the ticket table by the
bulk-resolved table plus the new open strikeOff ticket, where the bulk
resolve sets status resolved on precisely the company's open non-strikeOff
tickets and leaves every other ticket unchanged; with zero or more than
one director the call fails with a ConflictError and no change. -/
theorem c1_strikeoff_resolves_open_tickets (m : Model) (cid : ℕ)
    (hc : companyExists m cid = true) (h0 : cid ≠ 0) :
    ((usersWith m cid .director).length = 1 →
      ∃ dtoOut newT,
        createTicket m ⟨some .strikeOff, cid⟩ =
          ({ m with
              tickets := resolveOtherTickets cid m.tickets ++ [newT]
              nextTicketId := m.nextTicketId + 1 }, .ok dtoOut) ∧
          newT.type = .strikeOff ∧ newT.status = .opened ∧ newT.companyId = cid) ∧
      ((usersWith m cid .director).length ≠ 1 →
        ∃ msg, createTicket m ⟨some .strikeOff, cid⟩ = (m, .error (.conflict msg))) ∧
      (∀ t : Ticket, t.companyId = cid → t.status = .opened → t.type ≠ .strikeOff →
        resolveOtherTickets cid [t] = [{ t with status := TicketStatus.resolved }]) ∧
      (∀ t : Ticket, t.companyId ≠ cid ∨ t.status = .resolved ∨ t.type = .strikeOff →
        resolveOtherTickets cid [t] = [t]) := by
  refine ⟨?_, ?_, ?_, ?_⟩
  · intro hd1
    simp only [createTicket]
    rw [if_neg h0, if_neg (by simp [hc]), if_neg (by simp), if_neg (by simp),
      if_pos (by trivial), if_pos hd1]
    simp only [finishCreate]
    have husers : usersWith { m with tickets := resolveOtherTickets cid m.tickets }
        cid .director = usersWith m cid .director := rfl
    rw [husers]
    have hlen : (orderByCreatedAtDesc (usersWith m cid .director)).length = 1 := by
      rw [orderByCreatedAtDesc, List.length_insertionSort]
      exact hd1
    cases hs : orderByCreatedAtDesc (usersWith m cid .director) with
    | nil =>
      rw [hs] at hlen
      simp at hlen
    | cons a rest => exact ⟨_, _, rfl, rfl, rfl, rfl⟩
  · intro hd1
    simp only [createTicket]
    rw [if_neg h0, if_neg (by simp [hc]), if_neg (by simp), if_neg (by simp),
      if_pos (by trivial), if_neg hd1]
    by_cases hd2 : (usersWith m cid .director).length > 1
    · rw [if_pos hd2]
      exact ⟨_, rfl⟩
    · rw [if_neg hd2]
      exact ⟨_, rfl⟩
  · intro t h1 h2 h3
    simp [resolveOtherTickets, h1, h2, h3]
  · intro t h
    rcases h with h | h | h
    · simp [resolveOtherTickets, h]
    · have : ¬(t.companyId = cid ∧ t.status = TicketStatus.opened ∧ t.type ≠ .strikeOff) := by
        rintro ⟨_, h2, _⟩
        rw [h] at h2
        exact TicketStatus.noConfusion h2
      simp [resolveOtherTickets, this]
    · have : ¬(t.companyId = cid ∧ t.status = TicketStatus.opened ∧ t.type ≠ .strikeOff) := by
        rintro ⟨_, _, h3⟩
        exact h3 h
      simp [resolveOtherTickets, this]

/-- Witness for C1 at a concrete one-director company: the open
managementReport ticket of company 1 is resolved, the other company's
ticket untouched, and the new strikeOff ticket appended. -/
theorem c1_strikeoff_resolves_open_tickets_witness :
    ∃ dtoOut newT,
      createTicket
          ⟨[⟨1⟩, ⟨2⟩], [⟨12, .director, 1, 7⟩],
            [⟨100, .managementReport, .accounting, .opened, 1, 12⟩,
              ⟨101, .other, .corporate, .opened, 2, 12⟩], 102⟩
          ⟨some .strikeOff, 1⟩ =
        ({ (⟨[⟨1⟩, ⟨2⟩], [⟨12, .director, 1, 7⟩],
              [⟨100, .managementReport, .accounting, .opened, 1, 12⟩,
                ⟨101, .other, .corporate, .opened, 2, 12⟩], 102⟩ : Model) with
            tickets := resolveOtherTickets 1
                [⟨100, .managementReport, .accounting, .opened, 1, 12⟩,
                  ⟨101, .other, .corporate, .opened, 2, 12⟩] ++ [newT]
            nextTicketId := 102 + 1 }, .ok dtoOut) ∧
        newT.type = .strikeOff ∧ newT.status = .opened ∧ newT.companyId = 1 :=
  (c1_strikeoff_resolves_open_tickets
    ⟨[⟨1⟩, ⟨2⟩], [⟨12, .director, 1, 7⟩],
      [⟨100, .managementReport, .accounting, .opened, 1, 12⟩,
        ⟨101, .other, .corporate, .opened, 2, 12⟩], 102⟩ 1
    (by decide) (by decide)).1 (by decide)

/-- C2.  Corporate-category assignee fallback for
registrationAddressChange and other tickets, once the duplicate check
passes: exactly one corporate secretary is assigned and the ticket's
category is corporate; several secretaries conflict; with none, the same
three-way branch runs on directors, ending in the no-suitable-assignee
conflict when there is no director either. -/
theorem c2_corporate_fallback_chain (m : Model) (cid : ℕ) (ty : TicketType)
    (hty : ty = .registrationAddressChange ∨ ty = .other)
    (hc : companyExists m cid = true) (h0 : cid ≠ 0)
    (hdup : ty = .registrationAddressChange → hasRacTicket m cid = false) :
    (∀ u : User, usersWith m cid .corporateSecretary = [u] →
        ∃ dtoOut, (createTicket m ⟨some ty, cid⟩).2 = .ok dtoOut ∧
          dtoOut.assigneeId = u.id ∧ dtoOut.category = .corporate) ∧
      ((usersWith m cid .corporateSecretary).length > 1 →
        createTicket m ⟨some ty, cid⟩ =
          (m, .error (.conflict "Multiple corporate secretaries found. Cannot create a ticket"))) ∧
      (usersWith m cid .corporateSecretary = [] →
        (∀ u : User, usersWith m cid .director = [u] →
            ∃ dtoOut, (createTicket m ⟨some ty, cid⟩).2 = .ok dtoOut ∧
              dtoOut.assigneeId = u.id ∧ dtoOut.category = .corporate) ∧
          ((usersWith m cid .director).length > 1 →
            createTicket m ⟨some ty, cid⟩ =
              (m, .error (.conflict "Multiple directors found. Cannot create a ticket"))) ∧
          (usersWith m cid .director = [] →
            createTicket m ⟨some ty, cid⟩ =
              (m, .error (.conflict "No suitable assignee found for this ticket type")))) := by
  have hnd : ¬(ty = .registrationAddressChange ∧ hasRacTicket m cid = true) := by
    rintro ⟨h1, h2⟩
    exact Bool.noConfusion ((hdup h1).symm.trans h2)
  have hmr : ¬(ty = .managementReport) := by
    rcases hty with rfl | rfl <;> simp
  have hso : ¬(ty = .strikeOff) := by
    rcases hty with rfl | rfl <;> simp
  simp only [createTicket]
  rw [if_neg h0, if_neg (by simp [hc]), if_neg hnd, if_neg hmr, if_neg hso]
  refine ⟨?_, ?_, ?_⟩
  · intro u hu
    have h1 : (usersWith m cid .corporateSecretary).length = 1 := by
      rw [hu]
      rfl
    rw [if_pos h1]
    simp only [finishCreate]
    rw [hu]
    exact ⟨_, rfl, rfl, rfl⟩
  · intro h2
    rw [if_neg (by omega), if_pos h2]
  · intro hsec
    have hlen0 : ¬(usersWith m cid .corporateSecretary).length = 1 := by
      rw [hsec]
      simp
    have hgt0 : ¬(usersWith m cid .corporateSecretary).length > 1 := by
      rw [hsec]
      simp
    rw [if_neg hlen0, if_neg hgt0]
    refine ⟨?_, ?_, ?_⟩
    · intro u hu
      have h1 : (usersWith m cid .director).length = 1 := by
        rw [hu]
        rfl
      rw [if_pos h1]
      simp only [finishCreate]
      rw [hu]
      exact ⟨_, rfl, rfl, rfl⟩
    · intro h2
      rw [if_neg (by omega), if_pos h2]
    · intro hdir
      have hd1 : ¬(usersWith m cid .director).length = 1 := by
        rw [hdir]
        simp
      have hd2 : ¬(usersWith m cid .director).length > 1 := by
        rw [hdir]
        simp
      rw [if_neg hd1, if_neg hd2]

/-- Witness for C2 at a concrete company with one secretary: the other
ticket is assigned to that secretary with category corporate. -/
theorem c2_corporate_fallback_chain_witness :
    ∃ dtoOut,
      (createTicket ⟨[⟨1⟩], [⟨11, .corporateSecretary, 1, 6⟩], [], 50⟩ ⟨some .other, 1⟩).2 =
          .ok dtoOut ∧
        dtoOut.assigneeId = (⟨11, .corporateSecretary, 1, 6⟩ : User).id ∧
        dtoOut.category = .corporate :=
  (c2_corporate_fallback_chain ⟨[⟨1⟩], [⟨11, .corporateSecretary, 1, 6⟩], [], 50⟩ 1 .other
    (Or.inr rfl) (by decide) (by decide) (by intro h; exact absurd h (by decide))).1
    ⟨11, .corporateSecretary, 1, 6⟩ (by decide)

/-- C5.  managementReport creation on an existing company assigns the
most recently created accountant (creation timestamp descending) with
category accounting and no conflict; with exactly one accountant that
accountant is assigned. -/
theorem c5_management_report_assignment (m : Model) (cid : ℕ) (u : User)
    (hc : companyExists m cid = true) (h0 : cid ≠ 0)
    (hu : u ∈ usersWith m cid .accountant)
    (hmax : ∀ v ∈ usersWith m cid .accountant, v ≠ u → v.createdAt < u.createdAt) :
    ∃ dtoOut, (createTicket m ⟨some .managementReport, cid⟩).2 = .ok dtoOut ∧
      dtoOut.category = .accounting ∧ dtoOut.assigneeId = u.id ∧
      dtoOut.status = .opened ∧ dtoOut.type = .managementReport := by
  simp only [createTicket]
  rw [if_neg h0, if_neg (by simp [hc]), if_neg (by simp), if_pos (by trivial)]
  simp only [finishCreate]
  obtain ⟨rest, hrest⟩ := orderByCreatedAtDesc_head (usersWith m cid .accountant) u hu hmax
  rw [hrest]
  exact ⟨_, rfl, rfl, rfl, rfl, rfl⟩

/-- Witness for C5 at a company with two accountants: the later-created
accountant (id 13) is assigned. -/
theorem c5_management_report_assignment_witness :
    ∃ dtoOut,
      (createTicket
          ⟨[⟨1⟩], [⟨10, .accountant, 1, 5⟩, ⟨13, .accountant, 1, 9⟩], [], 60⟩
          ⟨some .managementReport, 1⟩).2 = .ok dtoOut ∧
        dtoOut.category = .accounting ∧ dtoOut.assigneeId = (⟨13, .accountant, 1, 9⟩ : User).id ∧
        dtoOut.status = .opened ∧ dtoOut.type = .managementReport :=
  c5_management_report_assignment
    ⟨[⟨1⟩], [⟨10, .accountant, 1, 5⟩, ⟨13, .accountant, 1, 9⟩], [], 60⟩ 1
    ⟨13, .accountant, 1, 9⟩ (by decide) (by decide) (by decide) (by decide)
